import Mathlib

/-!
Shallow embedding of `src/vidsteps/__main__.py`: the playback
synchronization engine (`play_clip`) and the step-navigation loop of
`main`, together with the timestamp database access layer.

Times are modelled as exact rationals (the source uses Python floats as
real-valued seconds/milliseconds).  External collaborators (the input
source, the presentation clock) are modelled as oracles: a handler-state
`poll` function stands for `event_func` (each call drains the currently
queued input events) and a stream `ticks : Nat -> Rat` yields the elapsed
milliseconds returned by each successive `clock.tick(clip.fps)` call.
Unbounded `while` loops of the source are modelled with explicit fuel;
`none` means the fuel ran out (or the source would have raised), so every
`some` result corresponds to an actual finite execution of the source.
-/

namespace Vidsteps

/-- The triple returned by one call to an `event_func`
(`running, paused, step_delta`), together with the handler's
post-call state (position in the event queue, and for the recording
handler the mutated `step_timestamps` list). -/
structure PollRes (σ : Type) where
  running : Bool
  paused : Bool
  delta : Option Int
  hs : σ
deriving Repr

/-- Audio-subsystem operations performed by `play_clip`, in order:
`clip.audio.write_audiofile` (extract), `pygame.mixer.music.load`,
`.play()`, `.pause()`, `.unpause()`. -/
inductive AudioEvent where
  | extract
  | load
  | play
  | pause
  | unpause
deriving Repr, DecidableEq

/-- The mutable state threaded through `play_clip`'s frame loop:
`drift` is the source's `current_video_delay_ms` accumulator, `hs` the
input handler's state, `tickIdx` counts `clock.tick` calls (indexing the
`ticks` oracle), `renderedRev` the indices of frames rendered so far in
the current pass (most recent first), and `audioRev` the log of audio
operations (most recent first). -/
structure FrameState (σ : Type) where
  drift : ℚ
  hs : σ
  tickIdx : Nat
  renderedRev : List Nat
  audioRev : List AudioEvent
deriving Repr

/-- Outcome of one iteration of the `for i, frame in enumerate(...)`
body: `fail` = fuel exhausted inside an inner `while`, `brk` = the
source's `break` (quit or navigation delta), `cont` = fall through to
the next frame (either the drop-`continue` or the normal end of the
body). -/
inductive StepRes (σ : Type) where
  | fail
  | brk (st : FrameState σ) (running : Bool) (delta : Option Int)
  | cont (st : FrameState σ) (running : Bool) (delta : Option Int)
deriving Repr

/-- The source's catch-up wait:
`while current_video_delay_ms < -1 * ms_per_frame:
   current_video_delay_ms += clock.tick(clip.fps)`. -/
def waitLoop (ticks : Nat → ℚ) (mpf : ℚ) : Nat → ℚ → Nat → Option (ℚ × Nat)
  | 0, drift, tickIdx =>
    if drift < -mpf then none else some (drift, tickIdx)
  | fuel + 1, drift, tickIdx =>
    if drift < -mpf then waitLoop ticks mpf fuel (drift + ticks tickIdx) (tickIdx + 1)
    else some (drift, tickIdx)

/-- The source's paused polling loop:
`while paused and running:
   running, paused, step_delta = event_func(..., paused=True)
   clock.tick(clip.fps)`.
Returns the final `(running, paused, step_delta)` triple together with
the handler state and tick counter. -/
def pausedLoop {σ : Type} (poll : σ → Nat → Bool → PollRes σ) :
    Nat → Nat → Bool → Bool → Option Int → σ → Nat →
    Option (Bool × Bool × Option Int × σ × Nat)
  | 0, _, running, paused, delta, hs, tickIdx =>
    if paused = true ∧ running = true then none
    else some (running, paused, delta, hs, tickIdx)
  | fuel + 1, i, running, paused, delta, hs, tickIdx =>
    if paused = true ∧ running = true then
      let p := poll hs i true
      pausedLoop poll fuel i p.running p.paused p.delta p.hs (tickIdx + 1)
    else some (running, paused, delta, hs, tickIdx)

/-- One iteration of the frame loop body of `play_clip` at frame index
`i`, carrying the `running` / `step_delta` values currently in scope.
Follows the source line by line: the drop branch
(`current_video_delay_ms > ms_per_frame`) continues without polling;
otherwise the engine waits while behind, renders the frame, polls input
once with `paused=False`, runs the paused loop, replays audio pause /
unpause around it, and either breaks or accumulates
`clock.tick(clip.fps) - ms_per_frame` into the drift. -/
def frameStep {σ : Type} (poll : σ → Nat → Bool → PollRes σ) (ticks : Nat → ℚ)
    (mpf : ℚ) (fuel : Nat) (i : Nat) (st : FrameState σ) (running : Bool)
    (delta : Option Int) : StepRes σ :=
  if mpf < st.drift then
    StepRes.cont { st with drift := st.drift - mpf } running delta
  else
    match waitLoop ticks mpf fuel st.drift st.tickIdx with
    | none => StepRes.fail
    | some (drift1, tick1) =>
      let p := poll st.hs i false
      let st1 : FrameState σ :=
        { st with drift := drift1, tickIdx := tick1,
                  renderedRev := i :: st.renderedRev, hs := p.hs }
      let st2 := if p.paused = true then
          { st1 with audioRev := AudioEvent.pause :: st1.audioRev } else st1
      match pausedLoop poll fuel i p.running p.paused p.delta st2.hs st2.tickIdx with
      | none => StepRes.fail
      | some (r1, _, d1, hs1, tick2) =>
        let st3 := { st2 with hs := hs1, tickIdx := tick2 }
        let st4 := if p.paused = true then
            { st3 with audioRev := AudioEvent.unpause :: st3.audioRev } else st3
        if r1 = false ∨ d1 ≠ none then
          StepRes.brk st4 r1 d1
        else
          StepRes.cont
            { st4 with drift := st4.drift + ticks st4.tickIdx - mpf,
                       tickIdx := st4.tickIdx + 1 } r1 d1

/-- The `for i, frame in enumerate(frame_generator)` loop of `play_clip`,
with `rem` frames remaining starting at index `i`.  Returns the final
state together with the `running` / `step_delta` values in scope when
the loop ends (by exhaustion or by `break`). -/
def frameLoop {σ : Type} (poll : σ → Nat → Bool → PollRes σ) (ticks : Nat → ℚ)
    (mpf : ℚ) (fuel : Nat) :
    Nat → Nat → FrameState σ → Bool → Option Int →
    Option (FrameState σ × Bool × Option Int)
  | _, 0, st, running, delta => some (st, running, delta)
  | i, rem + 1, st, running, delta =>
    match frameStep poll ticks mpf fuel i st running delta with
    | StepRes.fail => none
    | StepRes.brk st' r' d' => some (st', r', d')
    | StepRes.cont st' r' d' => frameLoop poll ticks mpf fuel (i + 1) rem st' r' d'

/-- Observable record of one pass of the `while True:` loop of
`play_clip`: the value of `current_video_delay_ms` when the pass began
and the frame indices rendered during the pass, in order. -/
structure PassTrace where
  driftStart : ℚ
  rendered : List Nat
deriving Repr

/-- Final outcome of a `play_clip` call: the returned
`(running, step_delta)` pair, the per-pass traces in order, and the
final engine state. -/
structure RunResult (σ : Type) where
  running : Bool
  delta : Option Int
  traces : List PassTrace
  final : FrameState σ
deriving Repr

/-- The `while True:` loop of `play_clip`.  Each iteration produces a
fresh frame sequence of `nFrames` frames, restarts audio playback
(`pygame.mixer.music.play()`), runs the frame loop, and then repeats
unless `not repeat or not running or step_delta in [-1, 1]`.  A clip
with zero frames makes the source raise `StopIteration` at the eager
`next(frame_generator)`, modelled as `none`.  Note that the drift
accumulator, the handler state and the tick stream carry over from one
pass to the next: only `renderedRev` is per-pass. -/
def playLoop {σ : Type} (poll : σ → Nat → Bool → PollRes σ) (ticks : Nat → ℚ)
    (mpf : ℚ) (nFrames : Nat) (rpt : Bool) (innerFuel : Nat) :
    Nat → FrameState σ → Bool → Option Int → List PassTrace →
    Option (RunResult σ)
  | 0, _, _, _, _ => none
  | fuel + 1, st, running, delta, tracesRev =>
    if nFrames = 0 then none
    else
      match frameLoop poll ticks mpf innerFuel 0 nFrames
          { st with renderedRev := [], audioRev := AudioEvent.play :: st.audioRev }
          running delta with
      | none => none
      | some (st', r', d') =>
        let tr : PassTrace := { driftStart := st.drift, rendered := st'.renderedRev.reverse }
        if rpt = false ∨ r' = false ∨ d' = some 1 ∨ d' = some (-1) then
          some { running := r', delta := d', traces := (tr :: tracesRev).reverse, final := st' }
        else
          playLoop poll ticks mpf nFrames rpt innerFuel fuel st' r' d' (tr :: tracesRev)

/-- The source's `play_clip(screen, clip, step_timestamps, ui_func,
event_func, repeat)`.  Before the `while True:` loop the clip's audio is
extracted and loaded exactly once, `ms_per_frame = 1000 / clip.fps` is
computed, and `current_video_delay_ms` is set to 0 exactly once. -/
def play_clip {σ : Type} (poll : σ → Nat → Bool → PollRes σ) (ticks : Nat → ℚ)
    (hs0 : σ) (fps : ℚ) (nFrames : Nat) (rpt : Bool)
    (outerFuel innerFuel : Nat) : Option (RunResult σ) :=
  let ms_per_frame := 1000 / fps
  playLoop poll ticks ms_per_frame nFrames rpt innerFuel outerFuel
    { drift := 0, hs := hs0, tickIdx := 0, renderedRev := [],
      audioRev := [AudioEvent.load, AudioEvent.extract] } true none []

/-!  Database access layer.  The sqlite table `video_timestamps (path
TEXT PRIMARY KEY, timestamps BLOB)` is modelled as an association list
with unique keys; the JSON round-trip through the BLOB column is the
identity on lists of numbers. -/

/-- `set_timestamps_for_video`: `INSERT ... ON CONFLICT (path) DO UPDATE
SET timestamps = excluded.timestamps` — an upsert keyed by the video
path. -/
def set_timestamps_for_video (db : List (String × List ℚ)) (video_path : String)
    (timestamps : List ℚ) : List (String × List ℚ) :=
  if db.any (fun kv => kv.1 == video_path) then
    db.map (fun kv => if kv.1 == video_path then (video_path, timestamps) else kv)
  else
    db ++ [(video_path, timestamps)]

/-- `get_timestamps_for_video`: `SELECT timestamps FROM video_timestamps
WHERE path = ?`, returning `[]` when the query yields no row
(`StopIteration`). -/
def get_timestamps_for_video (db : List (String × List ℚ)) (video_path : String) :
    List ℚ :=
  match db.find? (fun kv => kv.1 == video_path) with
  | some kv => kv.2
  | none => []

/-!  Step navigation (`main`).  -/

/-- The segment the navigator plays at step index `i`:
`clip_start = step_timestamps[step_idx]` and
`clip_end = step_timestamps[step_idx+1] if step_idx+1 <
len(step_timestamps) else int(video.duration)` (Python `int()` on a
non-negative duration is the floor). -/
def segmentAt (step_timestamps : List ℚ) (duration : ℚ) (i : Nat) : ℚ × ℚ :=
  (step_timestamps.getD i 0,
   if i + 1 < step_timestamps.length then step_timestamps.getD (i + 1) 0
   else (⌊duration⌋ : ℚ))

/-- Modelled from the spec: `ClipSource.subrange(start, end)` "fails
with a range error if `start >= duration` or `end <= start`" — the
source's `video.subclip(clip_start, clip_end)` raising `ValueError`,
which is library code outside this repository. -/
def subrange (duration start stop : ℚ) : Except Unit Unit :=
  if start ≥ duration ∨ stop ≤ start then Except.error () else Except.ok ()

/-- The navigator's index update after a pass:
`step_idx += step_delta or 0; step_idx = max(step_idx, 0)`
(Python's `or` maps both `None` and `0` to `0`). -/
def nextIdx (delta : Option Int) (step_idx : Int) : Int :=
  max (step_idx + delta.getD 0) 0

/-- The play-steps loop of `main`:
`while running and step_idx < len(step_timestamps)`.  Each iteration
computes the segment, attempts `video.subclip` (the `except ValueError`
branch sets `running = False` and breaks), then consumes the next
`(running, step_delta)` pass outcome from the oracle `passes` and
updates `step_idx`.  Returns the final `(running, step_idx)`. -/
def playbackLoop (step_timestamps : List ℚ) (duration : ℚ)
    (passes : Nat → Bool × Option Int) :
    Nat → Bool → Int → Nat → Option (Bool × Int)
  | 0, _, _, _ => none
  | fuel + 1, running, step_idx, k =>
    if running = true ∧ step_idx < (step_timestamps.length : Int) then
      let seg := segmentAt step_timestamps duration step_idx.toNat
      match subrange duration seg.1 seg.2 with
      | Except.error _ => some (false, step_idx)
      | Except.ok _ =>
        let pr := passes k
        playbackLoop step_timestamps duration passes fuel pr.1
          (nextIdx pr.2 step_idx) (k + 1)
    else
      some (running, step_idx)

/-!  Recording mode (`main`'s record branch). -/

/-- Abstract vocabulary of input events seen by `record_event_func`:
window quit, the pause key `p`, the mark keys (space / return), the exit
keys (ctrl-C / `q`), and any other event. -/
inductive InputEvent where
  | quit
  | keyPause
  | keyMark
  | keyExit
  | other
deriving Repr, DecidableEq

/-- One `for event in pygame.event.get():` iteration of
`record_event_func`, folding over `(running, paused, step_timestamps)`. -/
def record_event_step (fps : ℚ) (frame_idx : Nat) (acc : Bool × Bool × List ℚ)
    (ev : InputEvent) : Bool × Bool × List ℚ :=
  match ev with
  | InputEvent.quit => (false, acc.2.1, acc.2.2)
  | InputEvent.keyPause => (acc.1, !acc.2.1, acc.2.2)
  | InputEvent.keyMark => (acc.1, acc.2.1, acc.2.2 ++ [(frame_idx : ℚ) / fps])
  | InputEvent.keyExit => (false, acc.2.1, acc.2.2)
  | InputEvent.other => acc

/-- `record_event_func(clock, clip, step_timestamps, frame_idx, paused)`:
starts from `running = True` and the passed `paused`, processes the
drained event queue, appends `frame_idx / clip.fps` on each mark, and
always returns `step_delta = None`. -/
def record_event_func (fps : ℚ) (frame_idx : Nat) (queue : List InputEvent)
    (paused : Bool) (steps : List ℚ) : Bool × Bool × List ℚ :=
  queue.foldl (record_event_step fps frame_idx) (true, paused, steps)

/-- The recording handler as a `poll` oracle: the state is the list of
not-yet-drained event queues (one per poll) together with the
accumulated `step_timestamps`.  An exhausted queue list behaves like an
empty `pygame.event.get()`. -/
def recordPoll (fps : ℚ) :
    List (List InputEvent) × List ℚ → Nat → Bool →
    PollRes (List (List InputEvent) × List ℚ)
  | (qs, steps), i, paused =>
    match qs with
    | [] => { running := true, paused := paused, delta := none, hs := ([], steps) }
    | q :: rest =>
      let r := record_event_func fps i q paused steps
      { running := r.1, paused := r.2.1, delta := none, hs := (rest, r.2.2) }

/-- `main`'s recording branch: run `play_clip` once with
`repeat=False` over the full video starting from an empty step list,
then unconditionally `set_timestamps_for_video` with whatever list
resulted.  Returns the updated database, the returned `running` and
`step_delta`, and the persisted list. -/
def recordSession (db : List (String × List ℚ)) (video_path : String) (fps : ℚ)
    (nFrames : Nat) (queues : List (List InputEvent)) (ticks : Nat → ℚ)
    (outerFuel innerFuel : Nat) :
    Option (List (String × List ℚ) × Bool × Option Int × List ℚ) :=
  match play_clip (recordPoll fps) ticks (queues, ([] : List ℚ)) fps nFrames false
      outerFuel innerFuel with
  | none => none
  | some out =>
    some (set_timestamps_for_video db video_path out.final.hs.2,
          out.running, out.delta, out.final.hs.2)

/-- A playback-mode handler that always reports an empty event queue:
`play_event_func` with no pending events returns
`(True, paused, None)`. -/
def quietPoll : Unit → Nat → Bool → PollRes Unit :=
  fun _ _ paused => { running := true, paused := paused, delta := none, hs := () }

/-- A stream-driven handler for scenario runs: the state is the list of
remaining poll outcomes; an exhausted list behaves like an empty event
queue. -/
def streamPoll : List (Bool × Bool × Option Int) → Nat → Bool →
    PollRes (List (Bool × Bool × Option Int))
  | [], _, paused => { running := true, paused := paused, delta := none, hs := [] }
  | e :: rest, _, _ => { running := e.1, paused := e.2.1, delta := e.2.2, hs := rest }

/-- The invariant used for Recording mode: every still-pending event
queue contains only mark / other events. -/
def QuietQueues (s : List (List InputEvent) × List ℚ) : Prop :=
  ∀ q ∈ s.1, ∀ e ∈ q, e = InputEvent.keyMark ∨ e = InputEvent.other

/-- The tick schedule of the spec's drift scenario: the tick after the
first rendered frame reports an elapsed decode+render time of
`3 × msPerFrame`; every later tick is exactly on budget. -/
def driftSpike (mpf : ℚ) : Nat → ℚ :=
  fun k => if k = 0 then 3 * mpf else mpf

/-- The rendered frame-index lists of a run, one per pass. -/
def renderedLists {σ : Type} (out : RunResult σ) : List (List Nat) :=
  out.traces.map PassTrace.rendered

/-- Per-pass drift at pass start, the number of audio loads, and the
number of passes of a run — the observables of the repeat behaviour. -/
def runSummary {σ : Type} (out : RunResult σ) : List ℚ × Nat × Nat :=
  (out.traces.map PassTrace.driftStart, out.final.audioRev.count AudioEvent.load,
   out.traces.length)

/-- Poll outcomes for a two-pass scenario: the first pass sees no input,
the first poll of the second pass requests an advance. -/
def c3stream : List (Bool × Bool × Option Int) :=
  [(true, false, none), (true, false, some 1)]

/-- The navigator's index after a whole sequence of pass deltas,
starting from index 0 (iterating the source's
`step_idx += step_delta or 0; step_idx = max(step_idx, 0)`). -/
def navFold (ds : List (Option Int)) : Int :=
  ds.foldl (fun i d => nextIdx d i) 0

/-- The outcome of the two-pass `c3stream` scenario (fps 25, 2 frames,
repeat on): pass one ends naturally leaving drift at 40 ms, pass two
starts with that drift and exits on the advance request. -/
def c3out : RunResult (List (Bool × Bool × Option Int)) :=
  { running := true, delta := some 1,
    traces := [{ driftStart := 0, rendered := [0] },
               { driftStart := 40, rendered := [0] }],
    final := { drift := 40, hs := [], tickIdx := 1, renderedRev := [0], audioRev := [AudioEvent.play, AudioEvent.play, AudioEvent.load, AudioEvent.extract] } }

/-!  Basic lemmas about the inner loops. -/

theorem waitLoop_done {ticks : Nat → ℚ} {mpf drift : ℚ} {t : Nat} (fuel : Nat)
    (h : ¬ drift < -mpf) : waitLoop ticks mpf fuel drift t = some (drift, t) := by
  cases fuel <;> simp [waitLoop, h]

theorem pausedLoop_not_paused {σ : Type} {poll : σ → Nat → Bool → PollRes σ}
    {i : Nat} {running : Bool} {delta : Option Int} {hs : σ} {t : Nat} (fuel : Nat) :
    pausedLoop poll fuel i running false delta hs t =
      some (running, false, delta, hs, t) := by
  cases fuel <;> simp [pausedLoop]

theorem frameStep_drop {σ : Type} {poll : σ → Nat → Bool → PollRes σ}
    {ticks : Nat → ℚ} {mpf : ℚ} {fuel i : Nat} {st : FrameState σ}
    {r : Bool} {d : Option Int} (h : mpf < st.drift) :
    frameStep poll ticks mpf fuel i st r d =
      StepRes.cont { st with drift := st.drift - mpf } r d := by
  simp [frameStep, h]

theorem frameStep_render {σ : Type} {poll : σ → Nat → Bool → PollRes σ}
    {ticks : Nat → ℚ} {mpf : ℚ} {fuel i : Nat} {st : FrameState σ}
    {r : Bool} {d : Option Int} {dr1 : ℚ} {t1 : Nat} {hs1 : σ}
    (hnd : ¬ mpf < st.drift)
    (hw : waitLoop ticks mpf fuel st.drift st.tickIdx = some (dr1, t1))
    (hp : poll st.hs i false = { running := true, paused := false, delta := none, hs := hs1 }) :
    frameStep poll ticks mpf fuel i st r d =
      StepRes.cont
        { st with drift := dr1 + ticks t1 - mpf, hs := hs1, tickIdx := t1 + 1,
                  renderedRev := i :: st.renderedRev } true none := by
  simp [frameStep, hnd, hw, hp, pausedLoop_not_paused]

theorem frameStep_fail_wait {σ : Type} {poll : σ → Nat → Bool → PollRes σ}
    {ticks : Nat → ℚ} {mpf : ℚ} {fuel i : Nat} {st : FrameState σ}
    {r : Bool} {d : Option Int}
    (hnd : ¬ mpf < st.drift)
    (hw : waitLoop ticks mpf fuel st.drift st.tickIdx = none) :
    frameStep poll ticks mpf fuel i st r d = StepRes.fail := by
  simp [frameStep, hnd, hw]

theorem frameStep_shape {σ : Type} {poll : σ → Nat → Bool → PollRes σ}
    {ticks : Nat → ℚ} {mpf : ℚ} {fuel i : Nat} {st : FrameState σ}
    {r : Bool} {d : Option Int} {st' : FrameState σ} {r' : Bool} {d' : Option Int}
    (h : frameStep poll ticks mpf fuel i st r d = StepRes.brk st' r' d' ∨
         frameStep poll ticks mpf fuel i st r d = StepRes.cont st' r' d') :
    (st'.renderedRev = st.renderedRev ∨ st'.renderedRev = i :: st.renderedRev) ∧
    (∀ a : AudioEvent, a ≠ AudioEvent.pause → a ≠ AudioEvent.unpause →
       st'.audioRev.count a = st.audioRev.count a) := by
  unfold frameStep at h
  by_cases hdrop : mpf < st.drift
  · simp only [if_pos hdrop] at h
    rcases h with h | h
    · cases h
    · cases h
      exact ⟨Or.inl rfl, fun a _ _ => rfl⟩
  · simp only [if_neg hdrop] at h
    rcases hw : waitLoop ticks mpf fuel st.drift st.tickIdx with _ | ⟨dr1, t1⟩ <;>
      rw [hw] at h
    · rcases h with h | h <;> cases h
    · dsimp only at h
      rcases hpl : pausedLoop poll fuel i (poll st.hs i false).running
          (poll st.hs i false).paused (poll st.hs i false).delta
          (if (poll st.hs i false).paused = true then
            { st with drift := dr1, tickIdx := t1, renderedRev := i :: st.renderedRev,
                      hs := (poll st.hs i false).hs,
                      audioRev := AudioEvent.pause :: st.audioRev }
           else
            { st with drift := dr1, tickIdx := t1, renderedRev := i :: st.renderedRev,
                      hs := (poll st.hs i false).hs }).hs
          (if (poll st.hs i false).paused = true then
            { st with drift := dr1, tickIdx := t1, renderedRev := i :: st.renderedRev,
                      hs := (poll st.hs i false).hs,
                      audioRev := AudioEvent.pause :: st.audioRev }
           else
            { st with drift := dr1, tickIdx := t1, renderedRev := i :: st.renderedRev,
                      hs := (poll st.hs i false).hs }).tickIdx
        with _ | ⟨r1, p1, d1, hs1, t2⟩ <;> rw [hpl] at h
      · rcases h with h | h <;> cases h
      · by_cases hpp : (poll st.hs i false).paused = true <;>
          simp only [if_pos, if_neg, hpp, Bool.false_eq_true, ite_true, ite_false] at h
        all_goals (
          by_cases hbrk : r1 = false ∨ d1 ≠ none <;>
            simp only [if_pos, if_neg, hbrk, ite_true, ite_false] at h <;>
            rcases h with h | h <;> (try cases h) <;>
            refine ⟨Or.inr rfl, fun a hap hau => ?_⟩ <;>
            simp [List.count_cons, hap, hau])

theorem frameLoop_rendered {σ : Type} {poll : σ → Nat → Bool → PollRes σ}
    {ticks : Nat → ℚ} {mpf : ℚ} {fuel : Nat} :
    ∀ (rem i : Nat) (st : FrameState σ) (r : Bool) (d : Option Int)
      (st' : FrameState σ) (r' : Bool) (d' : Option Int),
    frameLoop poll ticks mpf fuel i rem st r d = some (st', r', d') →
    List.Chain' (· > ·) st.renderedRev → (∀ x ∈ st.renderedRev, x < i) →
    List.Chain' (· > ·) st'.renderedRev ∧ ∀ x ∈ st'.renderedRev, x < i + rem := by
  intro rem
  induction rem with
  | zero =>
    intro i st r d st' r' d' h hc hb
    simp only [frameLoop, Option.some.injEq, Prod.mk.injEq] at h
    obtain ⟨h1, -, -⟩ := h
    subst h1
    exact ⟨hc, fun x hx => by simpa using hb x hx⟩
  | succ rem ih =>
    intro i st r d st' r' d' h hc hb
    simp only [frameLoop] at h
    rcases hs1 : frameStep poll ticks mpf fuel i st r d with _ | ⟨st1, r1, d1⟩ | ⟨st1, r1, d1⟩ <;>
      rw [hs1] at h
    · cases h
    · simp only [Option.some.injEq, Prod.mk.injEq] at h
      obtain ⟨h1, -, -⟩ := h
      subst h1
      obtain ⟨hrv, -⟩ := frameStep_shape (Or.inl hs1)
      rcases hrv with hrv | hrv <;> rw [hrv]
      · exact ⟨hc, fun x hx => by have := hb x hx; omega⟩
      · refine ⟨List.chain'_cons'.mpr ⟨fun b hbm => hb b (List.mem_of_mem_head? hbm), hc⟩,
          fun x hx => ?_⟩
        rcases List.mem_cons.mp hx with hx | hx
        · omega
        · have := hb x hx; omega
    · obtain ⟨hrv, -⟩ := frameStep_shape (Or.inr hs1)
      have hc1 : List.Chain' (· > ·) st1.renderedRev := by
        rcases hrv with hrv | hrv <;> rw [hrv]
        · exact hc
        · exact List.chain'_cons'.mpr ⟨fun b hbm => hb b (List.mem_of_mem_head? hbm), hc⟩
      have hb1 : ∀ x ∈ st1.renderedRev, x < i + 1 := by
        intro x hx
        rcases hrv with hrv | hrv <;> rw [hrv] at hx
        · have := hb x hx; omega
        · rcases List.mem_cons.mp hx with hx | hx
          · omega
          · have := hb x hx; omega
      obtain ⟨hc2, hb2⟩ := ih (i + 1) st1 r1 d1 st' r' d' h hc1 hb1
      exact ⟨hc2, fun x hx => by have := hb2 x hx; omega⟩

theorem frameLoop_audio {σ : Type} {poll : σ → Nat → Bool → PollRes σ}
    {ticks : Nat → ℚ} {mpf : ℚ} {fuel : Nat} :
    ∀ (rem i : Nat) (st : FrameState σ) (r : Bool) (d : Option Int)
      (st' : FrameState σ) (r' : Bool) (d' : Option Int),
    frameLoop poll ticks mpf fuel i rem st r d = some (st', r', d') →
    ∀ a : AudioEvent, a ≠ AudioEvent.pause → a ≠ AudioEvent.unpause →
      st'.audioRev.count a = st.audioRev.count a := by
  intro rem
  induction rem with
  | zero =>
    intro i st r d st' r' d' h a hap hau
    simp only [frameLoop, Option.some.injEq, Prod.mk.injEq] at h
    obtain ⟨h1, -, -⟩ := h
    subst h1
    rfl
  | succ rem ih =>
    intro i st r d st' r' d' h a hap hau
    simp only [frameLoop] at h
    rcases hs1 : frameStep poll ticks mpf fuel i st r d with _ | ⟨st1, r1, d1⟩ | ⟨st1, r1, d1⟩ <;>
      rw [hs1] at h
    · cases h
    · simp only [Option.some.injEq, Prod.mk.injEq] at h
      obtain ⟨h1, -, -⟩ := h
      subst h1
      exact (frameStep_shape (Or.inl hs1)).2 a hap hau
    · calc st'.audioRev.count a = st1.audioRev.count a :=
            ih (i + 1) st1 r1 d1 st' r' d' h a hap hau
        _ = st.audioRev.count a := (frameStep_shape (Or.inr hs1)).2 a hap hau

theorem playLoop_shape {σ : Type} {poll : σ → Nat → Bool → PollRes σ}
    {ticks : Nat → ℚ} {mpf : ℚ} {nF : Nat} {rpt : Bool} {iF : Nat} :
    ∀ (fuel : Nat) (st : FrameState σ) (r : Bool) (d : Option Int) (R : List PassTrace)
      (out : RunResult σ),
    playLoop poll ticks mpf nF rpt iF fuel st r d R = some out →
    (∀ a : AudioEvent, a ≠ AudioEvent.pause → a ≠ AudioEvent.unpause →
       a ≠ AudioEvent.play → out.final.audioRev.count a = st.audioRev.count a) ∧
    (out.final.audioRev.count AudioEvent.play + R.length =
       st.audioRev.count AudioEvent.play + out.traces.length) ∧
    (∃ ts rnd, out.traces = R.reverse ++ ts ∧
       ts.head? = some { driftStart := st.drift, rendered := rnd }) ∧
    ((∀ t ∈ R, List.Chain' (· < ·) t.rendered) →
       ∀ t ∈ out.traces, List.Chain' (· < ·) t.rendered) := by
  intro fuel
  induction fuel with
  | zero => intro st r d R out h; cases h
  | succ fuel ih =>
    intro st r d R out h
    simp only [playLoop] at h
    by_cases hnf : nF = 0
    · rw [if_pos hnf] at h; cases h
    rw [if_neg hnf] at h
    rcases hfl : frameLoop poll ticks mpf iF 0 nF
        { st with renderedRev := [], audioRev := AudioEvent.play :: st.audioRev } r d
      with _ | ⟨st1, r1, d1⟩ <;> rw [hfl] at h
    · cases h
    dsimp only at h
    have haud1 : ∀ a : AudioEvent, a ≠ AudioEvent.pause → a ≠ AudioEvent.unpause →
        st1.audioRev.count a = (AudioEvent.play :: st.audioRev).count a := by
      intro a hap hau
      exact frameLoop_audio nF 0
        { st with renderedRev := [], audioRev := AudioEvent.play :: st.audioRev } r d
        st1 r1 d1 hfl a hap hau
    have hch1 : List.Chain' (· < ·) st1.renderedRev.reverse := by
      have := frameLoop_rendered nF 0
        { st with renderedRev := [], audioRev := AudioEvent.play :: st.audioRev } r d
        st1 r1 d1 hfl (by simp) (by simp)
      exact List.chain'_reverse.mpr this.1
    by_cases hstop : rpt = false ∨ r1 = false ∨ d1 = some 1 ∨ d1 = some (-1)
    · rw [if_pos hstop] at h
      cases h
      refine ⟨?_, ?_, ?_, ?_⟩
      · intro a hap hau hapl
        rw [haud1 a hap hau, List.count_cons]
        simp [Ne.symm hapl]
      · have h1 : st1.audioRev.count AudioEvent.play =
            st.audioRev.count AudioEvent.play + 1 := by
          rw [haud1 AudioEvent.play (by simp) (by simp)]
          simp [List.count_cons]
        simp only [List.reverse_cons, List.length_append, List.length_reverse,
          List.length_cons, List.length_nil]
        omega
      · exact ⟨[{ driftStart := st.drift, rendered := st1.renderedRev.reverse }],
          st1.renderedRev.reverse, by simp, rfl⟩
      · intro hR t ht
        simp only [List.reverse_cons, List.mem_append, List.mem_reverse,
          List.mem_singleton] at ht
        rcases ht with ht | ht
        · exact hR t ht
        · rw [ht]; exact hch1
    · rw [if_neg hstop] at h
      obtain ⟨iha, ihp, ⟨ts, rnd, hts, hhd⟩, ihc⟩ :=
        ih st1 r1 d1 ({ driftStart := st.drift, rendered := st1.renderedRev.reverse } :: R) out h
      refine ⟨?_, ?_, ?_, ?_⟩
      · intro a hap hau hapl
        rw [iha a hap hau hapl, haud1 a hap hau, List.count_cons]
        simp [Ne.symm hapl]
      · have h1 : st1.audioRev.count AudioEvent.play =
            st.audioRev.count AudioEvent.play + 1 := by
          rw [haud1 AudioEvent.play (by simp) (by simp)]
          simp [List.count_cons]
        simp only [List.length_cons] at ihp
        omega
      · refine ⟨{ driftStart := st.drift, rendered := st1.renderedRev.reverse } :: ts,
          st1.renderedRev.reverse, ?_, ?_⟩
        · rw [hts, List.reverse_cons, List.append_assoc]
          rfl
        · simp
      · intro hR t ht
        refine ihc ?_ t ht
        intro t' ht'
        rcases List.mem_cons.mp ht' with ht' | ht'
        · rw [ht']; exact hch1
        · exact hR t' ht'

/-- A quiet poll is one whose result (given `paused=False`) is always
`(True, False, None)`: no quit, no pause, no navigation request. -/
theorem frameStep_quiet {σ : Type} {poll : σ → Nat → Bool → PollRes σ}
    {ticks : Nat → ℚ} {mpf : ℚ} {fuel i : Nat} {st : FrameState σ} (P : σ → Prop)
    (hP : ∀ s j, P s → (poll s j false).running = true ∧ (poll s j false).paused = false ∧
        (poll s j false).delta = none ∧ P (poll s j false).hs)
    (hs : P st.hs) :
    frameStep poll ticks mpf fuel i st true none = StepRes.fail ∨
    ∃ st', frameStep poll ticks mpf fuel i st true none = StepRes.cont st' true none ∧
      P st'.hs := by
  by_cases hd : mpf < st.drift
  · exact Or.inr ⟨_, frameStep_drop hd, hs⟩
  rcases hw : waitLoop ticks mpf fuel st.drift st.tickIdx with _ | ⟨dr1, t1⟩
  · exact Or.inl (frameStep_fail_wait hd hw)
  obtain ⟨h1, h2, h3, h4⟩ := hP st.hs i hs
  have hp : poll st.hs i false =
      { running := true, paused := false, delta := none, hs := (poll st.hs i false).hs } := by
    have he : poll st.hs i false =
        { running := (poll st.hs i false).running, paused := (poll st.hs i false).paused,
          delta := (poll st.hs i false).delta, hs := (poll st.hs i false).hs } := rfl
    conv_lhs => rw [he]
    rw [h1, h2, h3]
  exact Or.inr ⟨_, frameStep_render hd hw hp, h4⟩

theorem frameLoop_quiet {σ : Type} {poll : σ → Nat → Bool → PollRes σ}
    {ticks : Nat → ℚ} {mpf : ℚ} {fuel : Nat} (P : σ → Prop)
    (hP : ∀ s j, P s → (poll s j false).running = true ∧ (poll s j false).paused = false ∧
        (poll s j false).delta = none ∧ P (poll s j false).hs) :
    ∀ (rem i : Nat) (st : FrameState σ) (st' : FrameState σ) (r' : Bool) (d' : Option Int),
    P st.hs → frameLoop poll ticks mpf fuel i rem st true none = some (st', r', d') →
    r' = true ∧ d' = none ∧ P st'.hs := by
  intro rem
  induction rem with
  | zero =>
    intro i st st' r' d' hs h
    simp only [frameLoop, Option.some.injEq, Prod.mk.injEq] at h
    obtain ⟨h1, h2, h3⟩ := h
    subst h1
    exact ⟨h2.symm, h3.symm, hs⟩
  | succ rem ih =>
    intro i st st' r' d' hs h
    simp only [frameLoop] at h
    rcases frameStep_quiet P hP hs with hf | ⟨st1, hf, hP1⟩ <;> rw [hf] at h
    · cases h
    · exact ih (i + 1) st1 st' r' d' hP1 h

theorem playLoop_norepeat {σ : Type} {poll : σ → Nat → Bool → PollRes σ}
    {ticks : Nat → ℚ} {mpf : ℚ} {nF iF fuel : Nat} {st : FrameState σ}
    {r : Bool} {d : Option Int} {R : List PassTrace} {out : RunResult σ}
    (h : playLoop poll ticks mpf nF false iF fuel st r d R = some out) :
    ∃ st1, frameLoop poll ticks mpf iF 0 nF
      { st with renderedRev := [], audioRev := AudioEvent.play :: st.audioRev } r d =
        some (st1, out.running, out.delta) := by
  cases fuel with
  | zero => cases h
  | succ fuel =>
    simp only [playLoop] at h
    by_cases hnf : nF = 0
    · rw [if_pos hnf] at h; cases h
    rw [if_neg hnf] at h
    rcases hfl : frameLoop poll ticks mpf iF 0 nF
        { st with renderedRev := [], audioRev := AudioEvent.play :: st.audioRev } r d
      with _ | ⟨st1, r1, d1⟩ <;> rw [hfl] at h
    · cases h
    dsimp only at h
    simp only [true_or, if_true] at h
    cases h
    exact ⟨st1, by simp [hfl]⟩

/-!  Database lemmas. -/

theorem set_cons_ne (kv : String × List ℚ) (db : List (String × List ℚ))
    (p : String) (ts : List ℚ) (h : kv.1 ≠ p) :
    set_timestamps_for_video (kv :: db) p ts =
      kv :: set_timestamps_for_video db p ts := by
  by_cases ha : db.any (fun kv => kv.1 == p) <;>
    simp [set_timestamps_for_video, h, ha]

theorem get_cons_ne (kv : String × List ℚ) (db : List (String × List ℚ))
    (p : String) (h : kv.1 ≠ p) :
    get_timestamps_for_video (kv :: db) p = get_timestamps_for_video db p := by
  simp [get_timestamps_for_video, List.find?_cons, h]

theorem get_set_self (db : List (String × List ℚ)) (p : String) (ts : List ℚ) :
    get_timestamps_for_video (set_timestamps_for_video db p ts) p = ts := by
  induction db with
  | nil => simp [set_timestamps_for_video, get_timestamps_for_video, List.find?_cons]
  | cons kv db ih =>
    by_cases hk : kv.1 = p
    · simp [set_timestamps_for_video, get_timestamps_for_video, hk, List.find?_cons]
    · rw [set_cons_ne kv db p ts hk,
        get_cons_ne kv (set_timestamps_for_video db p ts) p hk]
      exact ih

theorem mem_set_keys {db : List (String × List ℚ)} {q : String} {ts : List ℚ} :
    ∀ kv ∈ set_timestamps_for_video db q ts, kv.1 = q ∨ kv.1 ∈ db.map Prod.fst := by
  intro kv hkv
  unfold set_timestamps_for_video at hkv
  by_cases ha : db.any (fun kv => kv.1 == q) = true
  · rw [if_pos ha] at hkv
    obtain ⟨kv0, hkv0, heq⟩ := List.mem_map.mp hkv
    by_cases hk : (kv0.1 == q) = true
    · rw [if_pos hk] at heq
      rw [← heq]
      exact Or.inl rfl
    · rw [if_neg hk] at heq
      rw [← heq]
      exact Or.inr (List.mem_map_of_mem Prod.fst hkv0)
  · rw [if_neg ha] at hkv
    rcases List.mem_append.mp hkv with hkv | hkv
    · exact Or.inr (List.mem_map_of_mem Prod.fst hkv)
    · rw [List.mem_singleton.mp hkv]
      exact Or.inl rfl

theorem get_eq_nil_of_no_key {db : List (String × List ℚ)} {p : String}
    (h : ∀ kv ∈ db, kv.1 ≠ p) : get_timestamps_for_video db p = [] := by
  have hf : db.find? (fun kv => kv.1 == p) = none :=
    List.find?_eq_none.mpr (fun kv hkv => by simp [h kv hkv])
  simp [get_timestamps_for_video, hf]

/-!  Recording-handler lemmas. -/

/-- Folding `record_event_step` over a queue that holds only mark /
other events never changes the `running` and `paused` components. -/
theorem record_fold_quiet (fps : ℚ) (i : Nat) :
    ∀ (q : List InputEvent) (acc : Bool × Bool × List ℚ),
    (∀ e ∈ q, e = InputEvent.keyMark ∨ e = InputEvent.other) →
    (q.foldl (record_event_step fps i) acc).1 = acc.1 ∧
    (q.foldl (record_event_step fps i) acc).2.1 = acc.2.1 := by
  intro q
  induction q with
  | nil => intro acc _; exact ⟨rfl, rfl⟩
  | cons e q ih =>
    intro acc hq
    have he := hq e (List.mem_cons_self e q)
    have hstep : (record_event_step fps i acc e).1 = acc.1 ∧
        (record_event_step fps i acc e).2.1 = acc.2.1 := by
      rcases he with he | he <;> rw [he] <;> exact ⟨rfl, rfl⟩
    have := ih (record_event_step fps i acc e)
      (fun e' he' => hq e' (List.mem_cons_of_mem e he'))
    rw [List.foldl_cons]
    exact ⟨this.1.trans hstep.1, this.2.trans hstep.2⟩

theorem recordPoll_quiet (fps : ℚ) :
    ∀ (s : List (List InputEvent) × List ℚ) (j : Nat), QuietQueues s →
    (recordPoll fps s j false).running = true ∧
    (recordPoll fps s j false).paused = false ∧
    (recordPoll fps s j false).delta = none ∧
    QuietQueues (recordPoll fps s j false).hs := by
  intro s j hs
  rcases s with ⟨qs, steps⟩
  cases qs with
  | nil => exact ⟨rfl, rfl, rfl, fun q hq => by cases hq⟩
  | cons q rest =>
    have hq : ∀ e ∈ q, e = InputEvent.keyMark ∨ e = InputEvent.other :=
      hs q (List.mem_cons_self q rest)
    have hfold := record_fold_quiet fps j q (true, false, steps) hq
    refine ⟨?_, ?_, rfl, ?_⟩
    · simpa [recordPoll, record_event_func] using hfold.1
    · simpa [recordPoll, record_event_func] using hfold.2
    · intro q' hq' e he
      exact hs q' (List.mem_cons_of_mem q hq') e he

theorem frameLoop_cont {σ : Type} {poll : σ → Nat → Bool → PollRes σ}
    {ticks : Nat → ℚ} {mpf : ℚ} {fuel i rem : Nat} {st st1 : FrameState σ}
    {r r1 : Bool} {d d1 : Option Int}
    (h : frameStep poll ticks mpf fuel i st r d = StepRes.cont st1 r1 d1) :
    frameLoop poll ticks mpf fuel i (rem + 1) st r d =
      frameLoop poll ticks mpf fuel (i + 1) rem st1 r1 d1 := by
  simp only [frameLoop, h]

/-- Once the drift sits exactly at `msPerFrame` and every remaining tick
is exactly on budget, every remaining frame renders and the drift stays
at `msPerFrame`. -/
theorem frameLoop_steady {ticks : Nat → ℚ} {mpf : ℚ} (hm : 0 < mpf) (fuel : Nat) :
    ∀ (rem i : Nat) (st : FrameState Unit), st.drift = mpf →
    (∀ k, st.tickIdx ≤ k → ticks k = mpf) →
    frameLoop quietPoll ticks mpf fuel i rem st true none =
      some ({ st with tickIdx := st.tickIdx + rem, renderedRev := (List.range' i rem).reverse ++ st.renderedRev }, true, none) := by
  intro rem
  induction rem with
  | zero =>
    intro i st hdr hticks
    simp [frameLoop]
  | succ rem ih =>
    intro i st hdr hticks
    have hnd : ¬ mpf < st.drift := by rw [hdr]; exact lt_irrefl mpf
    have hnw : ¬ st.drift < -mpf := by rw [hdr]; intro hcon; linarith
    have hstep := @frameStep_render Unit quietPoll ticks mpf fuel i st true none
      st.drift st.tickIdx () hnd (@waitLoop_done ticks mpf st.drift st.tickIdx fuel hnw) rfl
    rw [frameLoop_cont hstep, ih (i + 1) _ (by simp [hdr, hticks st.tickIdx le_rfl])
      (fun k hk => hticks k (by simp at hk ⊢; omega))]
    have e1 : st.drift + ticks st.tickIdx - mpf = st.drift := by
      rw [hdr, hticks st.tickIdx le_rfl]; ring
    simp [FrameState.mk.injEq, e1, List.range'_succ, List.append_assoc]
    omega

theorem navFold_aux : ∀ (ds : List (Option Int)) (i : Int), 0 ≤ i →
    0 ≤ ds.foldl (fun i d => nextIdx d i) i := by
  intro ds
  induction ds with
  | nil => intro i hi; exact hi
  | cons d ds ih =>
    intro i _
    rw [List.foldl_cons]
    exact ih (nextIdx d i) (le_max_right _ 0)

/-- Claim C5: for every sequence of navigation deltas in
{-1, 0, +1, None} applied from index 0, `currentStepIndex` never becomes
negative; a single rewind from index 0 keeps the index at 0 and the
navigator recomputes the same segment. -/
theorem c5_theorem :
    (∀ ds : List (Option Int),
       (∀ d ∈ ds, d = none ∨ d = some (-1) ∨ d = some 0 ∨ d = some 1) → 0 ≤ navFold ds) ∧
    nextIdx (some (-1)) 0 = 0 ∧
    (∀ (steps : List ℚ) (dur : ℚ),
       segmentAt steps dur (nextIdx (some (-1)) 0).toNat = segmentAt steps dur 0) := by
  refine ⟨fun ds _ => navFold_aux ds 0 le_rfl, by simp [nextIdx], fun steps dur => ?_⟩
  norm_num [nextIdx]

theorem c5_witness :
    0 ≤ navFold [some (-1), some 1, some 0, none] ∧
    nextIdx (some (-1)) 0 = 0 ∧
    segmentAt [5] 6 (nextIdx (some (-1)) 0).toNat = segmentAt [5] 6 0 :=
  ⟨c5_theorem.1 _ (by decide), c5_theorem.2.1, c5_theorem.2.2 [5] 6⟩

/-- Claim C2 counterexample: for the non-empty StepList `[5]` and video
duration 5.5, the (only) valid index 0 yields the segment
`(5, floor 5.5) = (5, 5)`, whose end is not greater than its start —
refuting the claim for arbitrary non-empty StepLists. -/
theorem c2_counterexample :
    0 < ([5] : List ℚ).length ∧
    ¬ (segmentAt [5] (11 / 2) 0).2 > (segmentAt [5] (11 / 2) 0).1 := by
  constructor
  · simp
  · have hfl : (⌊(11 / 2 : ℚ)⌋ : ℤ) = 5 := by
      rw [Int.floor_eq_iff]
      norm_num
    norm_num [segmentAt, hfl]

/-- Claim C2 amended: provided the StepList is strictly increasing and
every timestamp is below `floor videoDuration`, the segment at every
valid index satisfies `end > start`. -/
theorem c2_amended (steps : List ℚ) (dur : ℚ) (i : Nat) (hi : i < steps.length)
    (hsort : List.Pairwise (· < ·) steps)
    (hb : ∀ s ∈ steps, s < (⌊dur⌋ : ℚ)) :
    (segmentAt steps dur i).2 > (segmentAt steps dur i).1 := by
  unfold segmentAt
  by_cases h : i + 1 < steps.length
  · simp only [h, if_pos]
    rw [List.getD_eq_getElem steps 0 hi, List.getD_eq_getElem steps 0 h]
    exact List.pairwise_iff_getElem.mp hsort i (i + 1) hi h (by omega)
  · simp only [h, if_neg]
    rw [List.getD_eq_getElem steps 0 hi]
    exact hb _ (List.getElem_mem hi)

theorem c2_witness :
    (segmentAt [1, 2] (7 / 2) 1).2 > (segmentAt [1, 2] (7 / 2) 1).1 := by
  have hfl : (⌊(7 / 2 : ℚ)⌋ : ℤ) = 3 := by
    rw [Int.floor_eq_iff]
    norm_num
  refine c2_amended [1, 2] (7 / 2) 1 (by norm_num) ?_ ?_
  · norm_num
  · intro s hs
    rw [hfl]
    rcases List.mem_cons.mp hs with h | h
    · rw [h]; norm_num
    · rw [List.mem_singleton.mp h]; norm_num

/-- Claim C6: in Playback mode, when `ClipSource.subrange` reports a
range error for the current segment, the navigator sets `running` to
false and stops the loop at once, returning normally (the result is a
`some`, never an unhandled exception). -/
theorem c6_theorem (step_timestamps : List ℚ) (duration : ℚ)
    (passes : Nat → Bool × Option Int) (fuel : Nat) (idx : Int) (k : Nat)
    (hval : idx < (step_timestamps.length : Int))
    (herr : subrange duration (segmentAt step_timestamps duration idx.toNat).1
      (segmentAt step_timestamps duration idx.toNat).2 = Except.error ()) :
    playbackLoop step_timestamps duration passes (fuel + 1) true idx k =
      some (false, idx) := by
  unfold playbackLoop
  split
  next hc =>
    dsimp only
    rw [herr]
  next hc => exact absurd ⟨rfl, hval⟩ hc

theorem c6_witness :
    playbackLoop [5] (11 / 2) (fun _ => (true, none)) 1 true 0 0 = some (false, 0) := by
  have hfl : (⌊(11 / 2 : ℚ)⌋ : ℤ) = 5 := by
    rw [Int.floor_eq_iff]
    norm_num
  have h := c6_theorem [5] (11 / 2) (fun _ => (true, none)) 0 0 0 (by norm_num)
    (by norm_num [segmentAt, subrange, hfl])
  simpa using h

/-- Claim C7: TimestampStore round-trip — setting a list of timestamps
for a video id and reading it back yields exactly that list (including
the empty list), and reading an id for which nothing was ever set yields
the empty list. -/
theorem c7_theorem :
    (∀ (db : List (String × List ℚ)) (p : String) (ts : List ℚ),
       get_timestamps_for_video (set_timestamps_for_video db p ts) p = ts) ∧
    (∀ (ops : List (String × List ℚ)) (p : String),
       (∀ op ∈ ops, op.1 ≠ p) →
       get_timestamps_for_video
         (ops.foldl (fun db op => set_timestamps_for_video db op.1 op.2) []) p = []) := by
  constructor
  · exact get_set_self
  · intro ops p hops
    apply get_eq_nil_of_no_key
    have haux : ∀ (ops2 : List (String × List ℚ)) (db : List (String × List ℚ)),
        (∀ kv ∈ db, kv.1 ≠ p) → (∀ op ∈ ops2, op.1 ≠ p) →
        ∀ kv ∈ ops2.foldl (fun db op => set_timestamps_for_video db op.1 op.2) db,
          kv.1 ≠ p := by
      intro ops2
      induction ops2 with
      | nil => intro db hdb _ kv hkv; exact hdb kv hkv
      | cons op ops2 ih =>
        intro db hdb hops' kv hkv
        rw [List.foldl_cons] at hkv
        refine ih (set_timestamps_for_video db op.1 op.2) ?_
          (fun o ho => hops' o (List.mem_cons_of_mem op ho)) kv hkv
        intro kv' hkv'
        rcases mem_set_keys kv' hkv' with hk | hk
        · rw [hk]
          exact hops' op (List.mem_cons_self op ops2)
        · obtain ⟨kv0, h0, heq⟩ := List.mem_map.mp hk
          rw [← heq]
          exact hdb kv0 h0
    exact haux ops [] (fun kv h => by cases h) hops

theorem c7_witness :
    get_timestamps_for_video (set_timestamps_for_video [("a", [1])] "b" [2, 3]) "b" =
      [2, 3] ∧
    get_timestamps_for_video
      (([("a", [1])] : List (String × List ℚ)).foldl
        (fun db op => set_timestamps_for_video db op.1 op.2) []) "b" = [] := by
  refine ⟨c7_theorem.1 [("a", [1])] "b" [2, 3], c7_theorem.2 [("a", [1])] "b" ?_⟩
  intro op hop
  rw [List.mem_singleton.mp hop]
  decide


/-- Claim C1 counterexample: drift starts at 0 and the first rendered
frame's real elapsed decode+render time is `3 × msPerFrame`
(fps 25, msPerFrame 40, first tick 120); the engine drops only frame 1
and renders frame 2 — refuting the claim that the next two frames are
dropped and only the third subsequent frame renders. -/
theorem c1_counterexample :
    (play_clip quietPoll (driftSpike 40) () 25 6 false 1 0).map renderedLists =
      some [[0, 2, 3, 4, 5]] ∧
    2 ∈ ([0, 2, 3, 4, 5] : List Nat) ∧ 1 ∉ ([0, 2, 3, 4, 5] : List Nat) := by
  refine ⟨?_, by decide, by decide⟩
  norm_num [play_clip, playLoop, frameLoop, frameStep, waitLoop, pausedLoop, quietPoll,
    driftSpike, renderedLists]

/-- Claim C1 amended: with drift initially 0, if one frame's real
elapsed decode+render time is `3 × msPerFrame` (all other ticks on
budget), exactly one frame — the next one — is dropped; the second
subsequent frame (and every later frame) renders normally, and the drift
is restored to exactly `+msPerFrame`, inside
`[-msPerFrame, +msPerFrame]`. -/
theorem c1_amended (fps : ℚ) (hf : 0 < fps) (n : Nat) (hn : 3 ≤ n) (fuel : Nat) :
    play_clip quietPoll (driftSpike (1000 / fps)) () fps n false 1 fuel =
      some { running := true, delta := none,
             traces := [{ driftStart := 0, rendered := 0 :: List.range' 2 (n - 2) }],
             final := { drift := 1000 / fps, hs := (), tickIdx := n - 1, renderedRev := (List.range' 2 (n - 2)).reverse ++ [0], audioRev := [AudioEvent.play, AudioEvent.load, AudioEvent.extract] } } ∧
    -(1000 / fps) ≤ (1000 / fps : ℚ) ∧ (1000 / fps : ℚ) ≤ 1000 / fps := by
  have hm : (0 : ℚ) < 1000 / fps := by positivity
  obtain ⟨m, hm1, rfl⟩ : ∃ m, 1 ≤ m ∧ n = m + 2 := ⟨n - 2, by omega, by omega⟩
  refine ⟨?_, by linarith, le_refl _⟩
  have hstep0 : frameStep quietPoll (driftSpike (1000 / fps)) (1000 / fps) fuel 0
      ⟨0, (), 0, [], [AudioEvent.play, AudioEvent.load, AudioEvent.extract]⟩ true none =
      StepRes.cont ⟨2 * (1000 / fps), (), 1, [0],
        [AudioEvent.play, AudioEvent.load, AudioEvent.extract]⟩ true none := by
    rw [@frameStep_render Unit quietPoll (driftSpike (1000 / fps)) (1000 / fps) fuel 0
      ⟨0, (), 0, [], [AudioEvent.play, AudioEvent.load, AudioEvent.extract]⟩ true none
      0 0 () (by simp; linarith) (waitLoop_done fuel (by simp; linarith)) rfl]
    simp [driftSpike]
    ring
  have hstep1 : frameStep quietPoll (driftSpike (1000 / fps)) (1000 / fps) fuel 1
      ⟨2 * (1000 / fps), (), 1, [0], [AudioEvent.play, AudioEvent.load, AudioEvent.extract]⟩
      true none =
      StepRes.cont ⟨1000 / fps, (), 1, [0],
        [AudioEvent.play, AudioEvent.load, AudioEvent.extract]⟩ true none := by
    rw [frameStep_drop (by simp; linarith)]
    simp
    ring
  have hticks : ∀ k, (1 : Nat) ≤ k → driftSpike (1000 / fps) k = 1000 / fps := by
    intro k hk
    have : k ≠ 0 := by omega
    simp [driftSpike, this]
  have hloop : frameLoop quietPoll (driftSpike (1000 / fps)) (1000 / fps) fuel 0 (m + 2)
      ⟨0, (), 0, [], [AudioEvent.play, AudioEvent.load, AudioEvent.extract]⟩ true none =
      some (⟨1000 / fps, (), 1 + m, (List.range' 2 m).reverse ++ [0],
        [AudioEvent.play, AudioEvent.load, AudioEvent.extract]⟩, true, none) := by
    rw [show m + 2 = m + 1 + 1 from rfl, frameLoop_cont hstep0, frameLoop_cont hstep1,
      frameLoop_steady hm fuel m (1 + 1)
        ⟨1000 / fps, (), 1, [0], [AudioEvent.play, AudioEvent.load, AudioEvent.extract]⟩
        rfl hticks]
  show playLoop quietPoll (driftSpike (1000 / fps)) (1000 / fps) (m + 2) false fuel (0 + 1)
      ⟨0, (), 0, [], [AudioEvent.load, AudioEvent.extract]⟩ true none [] = _
  rw [playLoop, if_neg (by omega)]
  have hst : ({ drift := 0, hs := (), tickIdx := 0, renderedRev := [], audioRev := AudioEvent.play :: [AudioEvent.load, AudioEvent.extract] } : FrameState Unit) = ⟨0, (), 0, [], [AudioEvent.play, AudioEvent.load, AudioEvent.extract]⟩ := rfl
  rw [hst, hloop]
  simp [Nat.add_sub_cancel]
  omega

theorem c1_witness :
    play_clip quietPoll (driftSpike (1000 / 25)) () 25 6 false 1 0 =
      some { running := true, delta := none,
             traces := [{ driftStart := 0, rendered := 0 :: List.range' 2 4 }],
             final := { drift := 1000 / 25, hs := (), tickIdx := 5, renderedRev := (List.range' 2 4).reverse ++ [0], audioRev := [AudioEvent.play, AudioEvent.load, AudioEvent.extract] } } := by
  have h := (c1_amended 25 (by norm_num) 6 (by norm_num) 0).1
  simpa using h

/-- Claim C3 counterexample: a two-pass run (natural end of pass one
with repeat on) begins its second pass with the drift accumulator at
40 ms, not 0, and performs only one audio extract/load for its two
passes — refuting the claim that every repeated pass restarts from
step 1 with a fresh audio load and drift reset to 0. -/
theorem c3_counterexample :
    (play_clip streamPoll (driftSpike 40) c3stream 25 2 true 2 0).map runSummary =
      some ([0, 40], 1, 2) ∧ (40 : ℚ) ≠ 0 ∧ (1 : Nat) ≠ 2 := by
  refine ⟨?_, by norm_num, by norm_num⟩
  have hne1 : ((none : Option ℤ) = some 1) = False := by simp
  have hne2 : ((none : Option ℤ) = some (-1)) = False := by simp
  have hne3 : ((some (1 : ℤ) : Option ℤ) = none) = False := by simp
  have hne4 : ((some (1 : ℤ) : Option ℤ) = some 1) = True := by simp
  have hne5 : ((some (1 : ℤ) : Option ℤ) = some (-1)) = False := by simp
  have ha1 : (AudioEvent.extract = AudioEvent.load) = False := by simp
  have ha2 : (AudioEvent.play = AudioEvent.load) = False := by simp
  norm_num [ha1, ha2, hne3, hne4, hne5, play_clip, playLoop, frameLoop, frameStep, waitLoop, pausedLoop, streamPoll,
    driftSpike, c3stream, runSummary, List.count_cons, hne1, hne2]

/-- Claim C3 amended: audio is extracted and loaded exactly once per
`play_clip` invocation, before the first pass; every pass (including
repeats) starts audio playback afresh (one play per pass); the drift
accumulator is initialized to 0 only before the first pass — the first
pass starts with drift 0, and later passes inherit the accumulated
drift. -/
theorem c3_amended {σ : Type} (poll : σ → Nat → Bool → PollRes σ) (ticks : Nat → ℚ)
    (hs0 : σ) (fps : ℚ) (nF : Nat) (rpt : Bool) (oF iF : Nat) (out : RunResult σ)
    (h : play_clip poll ticks hs0 fps nF rpt oF iF = some out) :
    out.final.audioRev.count AudioEvent.extract = 1 ∧
    out.final.audioRev.count AudioEvent.load = 1 ∧
    out.final.audioRev.count AudioEvent.play = out.traces.length ∧
    ∃ rnd, out.traces.head? = some { driftStart := 0, rendered := rnd } := by
  simp only [play_clip] at h
  obtain ⟨ha, hp, ⟨ts, rnd, hts, hhd⟩, -⟩ := playLoop_shape oF _ true none [] out h
  refine ⟨?_, ?_, ?_, ⟨rnd, ?_⟩⟩
  · rw [ha AudioEvent.extract (by simp) (by simp) (by simp)]
    simp [List.count_cons]
  · rw [ha AudioEvent.load (by simp) (by simp) (by simp)]
    simp [List.count_cons]
  · simp only [List.length_nil] at hp
    have hinit : ([AudioEvent.load, AudioEvent.extract] : List AudioEvent).count
        AudioEvent.play = 0 := by decide
    rw [hinit] at hp
    omega
  · rw [hts]
    simpa using hhd

theorem c3_witness :
    play_clip streamPoll (driftSpike 40) c3stream 25 2 true 2 0 = some c3out ∧
    c3out.final.audioRev.count AudioEvent.load = 1 ∧
    c3out.final.audioRev.count AudioEvent.play = c3out.traces.length := by
  have h : play_clip streamPoll (driftSpike 40) c3stream 25 2 true 2 0 = some c3out := by
    have hne1 : ((none : Option ℤ) = some 1) = False := by simp
    have hne2 : ((none : Option ℤ) = some (-1)) = False := by simp
    have hne3 : ((some (1 : ℤ) : Option ℤ) = none) = False := by simp
    have hne4 : ((some (1 : ℤ) : Option ℤ) = some 1) = True := by simp
    have hne5 : ((some (1 : ℤ) : Option ℤ) = some (-1)) = False := by simp
    norm_num [hne3, hne4, hne5, play_clip, playLoop, frameLoop, frameStep, waitLoop,
      pausedLoop, streamPoll, driftSpike, c3stream, c3out, hne1, hne2]
  have hc := c3_amended streamPoll (driftSpike 40) c3stream 25 2 true 2 0 _ h
  exact ⟨h, hc.2.1, hc.2.2.1⟩

/-- Claim C4: after a frame loop ends, `play_clip` stops looping the
clip and returns exactly when repeat is false, or running is false, or
the produced delta is +1 or -1; in every other case (natural end with
repeat on, i.e. delta None, or an explicit restart delta 0) it runs the
clip again instead of returning. -/
theorem c4_theorem {σ : Type} (poll : σ → Nat → Bool → PollRes σ) (ticks : Nat → ℚ)
    (mpf : ℚ) (nF : Nat) (rpt : Bool) (iF oF : Nat) (st : FrameState σ) (r : Bool)
    (d : Option Int) (R : List PassTrace) (st' : FrameState σ) (r' : Bool)
    (d' : Option Int) (hnF : nF ≠ 0)
    (hfl : frameLoop poll ticks mpf iF 0 nF
      { st with renderedRev := [], audioRev := AudioEvent.play :: st.audioRev } r d =
      some (st', r', d')) :
    ((rpt = false ∨ r' = false ∨ d' = some 1 ∨ d' = some (-1)) →
       playLoop poll ticks mpf nF rpt iF (oF + 1) st r d R =
         some { running := r', delta := d',
                traces := ({ driftStart := st.drift, rendered := st'.renderedRev.reverse } :: R).reverse,
                final := st' }) ∧
    (rpt = true → r' = true → (d' = none ∨ d' = some 0) →
       playLoop poll ticks mpf nF rpt iF (oF + 1) st r d R =
         playLoop poll ticks mpf nF rpt iF oF st' r' d'
           ({ driftStart := st.drift, rendered := st'.renderedRev.reverse } :: R)) := by
  constructor
  · intro hstop
    simp only [playLoop]
    rw [if_neg hnF, hfl]
    dsimp only
    rw [if_pos hstop]
  · intro h1 h2 h3
    simp only [playLoop]
    rw [if_neg hnF, hfl]
    dsimp only
    rw [if_neg (by rcases h3 with h3 | h3 <;> simp [h1, h2, h3])]

theorem c4_witness :
    playLoop quietPoll (fun _ => (40 : ℚ)) 40 1 false 0 1
      { drift := 0, hs := (), tickIdx := 0, renderedRev := [], audioRev := [AudioEvent.load, AudioEvent.extract] } true none [] =
      some { running := true, delta := none,
             traces := [{ driftStart := 0, rendered := [0] }],
             final := { drift := 0, hs := (), tickIdx := 1, renderedRev := [0], audioRev := [AudioEvent.play, AudioEvent.load, AudioEvent.extract] } } := by
  have hfl : frameLoop quietPoll (fun _ => (40 : ℚ)) 40 0 0 1
      { drift := 0, hs := (), tickIdx := 0, renderedRev := [], audioRev := [AudioEvent.play, AudioEvent.load, AudioEvent.extract] } true none =
      some ({ drift := 0, hs := (), tickIdx := 1, renderedRev := [0], audioRev := [AudioEvent.play, AudioEvent.load, AudioEvent.extract] }, true, none) := by
    norm_num [frameLoop, frameStep, waitLoop, pausedLoop, quietPoll]
  have h := (c4_theorem quietPoll (fun _ => (40 : ℚ)) 40 1 false 0 0
    { drift := 0, hs := (), tickIdx := 0, renderedRev := [], audioRev := [AudioEvent.load, AudioEvent.extract] } true none []
    { drift := 0, hs := (), tickIdx := 1, renderedRev := [0], audioRev := [AudioEvent.play, AudioEvent.load, AudioEvent.extract] } true none
    (by norm_num) hfl).1 (Or.inl rfl)
  simpa using h

/-- Claim C8: a Recording-mode pass (repeat=false) that reaches the
last frame with only mark/other input returns `(running=true,
delta=None)`, and Recording mode persists the resulting StepList via the
store regardless of how the pass ended — the persisted list reads back
as the recorded one. -/
theorem c8_theorem (db : List (String × List ℚ)) (video_path : String) (fps : ℚ)
    (nF : Nat) (queues : List (List InputEvent)) (ticks : Nat → ℚ) (oF iF : Nat)
    (db' : List (String × List ℚ)) (r : Bool) (d : Option Int) (steps : List ℚ)
    (h : recordSession db video_path fps nF queues ticks oF iF =
      some (db', r, d, steps)) :
    get_timestamps_for_video db' video_path = steps ∧
    ((∀ q ∈ queues, ∀ e ∈ q, e = InputEvent.keyMark ∨ e = InputEvent.other) →
       r = true ∧ d = none) := by
  unfold recordSession at h
  rcases hp : play_clip (recordPoll fps) ticks (queues, []) fps nF false oF iF
    with _ | out <;> rw [hp] at h
  · cases h
  simp only [Option.some.injEq, Prod.mk.injEq] at h
  obtain ⟨hdb, hr, hd, hsteps⟩ := h
  subst hdb; subst hr; subst hd; subst hsteps
  constructor
  · exact get_set_self db video_path out.final.hs.2
  · intro hq
    simp only [play_clip] at hp
    obtain ⟨st1, hfl⟩ := playLoop_norepeat hp
    have hinv := frameLoop_quiet QuietQueues (recordPoll_quiet fps) nF 0 _ st1
      out.running out.delta (fun q hq' e he => hq q hq' e he) hfl
    exact ⟨hinv.1, hinv.2.1⟩

theorem c8_witness :
    get_timestamps_for_video (set_timestamps_for_video [] "video" [0]) "video" = [0] ∧
    ((true : Bool) = true ∧ (none : Option Int) = none) := by
  have h : recordSession [] "video" 25 2 [[InputEvent.keyMark], []] (fun _ => 40) 1 0 =
      some (set_timestamps_for_video [] "video" [0], true, none, [0]) := by
    norm_num [recordSession, play_clip, playLoop, frameLoop, frameStep, waitLoop,
      pausedLoop, recordPoll, record_event_func, record_event_step,
      set_timestamps_for_video]
  have hc := c8_theorem [] "video" 25 2 [[InputEvent.keyMark], []] (fun _ => 40) 1 0
    (set_timestamps_for_video [] "video" [0]) true none [0] h
  exact ⟨hc.1, hc.2 (by decide)⟩

/-- Claim C9: within any single pass of a `play_clip` run, the rendered
frame indices form a strictly increasing sequence — dropped frames are
skipped entirely, no frame is rendered twice or out of order. -/
theorem c9_theorem {σ : Type} (poll : σ → Nat → Bool → PollRes σ) (ticks : Nat → ℚ)
    (hs0 : σ) (fps : ℚ) (nF : Nat) (rpt : Bool) (oF iF : Nat) (out : RunResult σ)
    (h : play_clip poll ticks hs0 fps nF rpt oF iF = some out) :
    ∀ tr ∈ out.traces, List.Chain' (· < ·) tr.rendered := by
  simp only [play_clip] at h
  exact (playLoop_shape oF _ true none [] out h).2.2.2 (by simp)

theorem c9_witness : List.Chain' (· < ·) ([0, 2, 3, 4, 5] : List Nat) := by
  have h : play_clip quietPoll (driftSpike 40) () 25 6 false 1 0 =
      some { running := true, delta := none,
             traces := [{ driftStart := 0, rendered := [0, 2, 3, 4, 5] }],
             final := { drift := 40, hs := (), tickIdx := 5, renderedRev := [5, 4, 3, 2, 0], audioRev := [AudioEvent.play, AudioEvent.load, AudioEvent.extract] } } := by
    norm_num [play_clip, playLoop, frameLoop, frameStep, waitLoop, pausedLoop,
      quietPoll, driftSpike]
  exact c9_theorem quietPoll (driftSpike 40) () 25 6 false 1 0 _ h
    { driftStart := 0, rendered := [0, 2, 3, 4, 5] } (by simp)

/-- Claim C10: each poll of the paused loop overwrites the previously
returned triple, so a navigation delta produced while paused is
discarded unless it comes from the final poll (the one that unpauses or
stops): the loop's outcome is exactly the final poll's triple, whatever
deltas the earlier paused polls produced. -/
theorem c10_theorem (xs : List (Bool × Bool × Option Int))
    (f : Bool × Bool × Option Int) (rest : List (Bool × Bool × Option Int))
    (i t : Nat) (d0 : Option Int)
    (hxs : ∀ e ∈ xs, e.1 = true ∧ e.2.1 = true)
    (hf : f.2.1 = false ∨ f.1 = false) :
    pausedLoop streamPoll (xs.length + 1) i true true d0 (xs ++ f :: rest) t =
      some (f.1, f.2.1, f.2.2, rest, t + (xs.length + 1)) := by
  revert hxs
  induction xs generalizing t d0 with
  | nil =>
    intro _
    rcases hf with hf | hf <;> simp [pausedLoop, streamPoll, hf]
  | cons e xs ih =>
    intro hxs
    obtain ⟨he1, he2⟩ := hxs e (List.mem_cons_self e xs)
    simp only [List.length_cons, List.cons_append]
    rw [pausedLoop, if_pos ⟨rfl, rfl⟩]
    dsimp only [streamPoll]
    rw [he1, he2, ih (t + 1) (e.2.2) (fun e' he' => hxs e' (List.mem_cons_of_mem e he'))]
    have harith : t + 1 + (xs.length + 1) = t + (xs.length + 1 + 1) := by omega
    rw [harith]

theorem c10_witness :
    pausedLoop streamPoll 2 0 true true none
      [(true, true, some 1), (true, false, none)] 0 =
      some (true, false, none, [], 2) := by
  have h := c10_theorem [(true, true, some 1)] (true, false, none) [] 0 0 none
    (by decide) (by decide)
  simpa using h


end Vidsteps
